import Mathlib

/-!
Verification of the `file_test_runner` test-harness library.

The Rust source is shallowly embedded: the recursive category/test tree
(`src/collection/mod.rs`), the panic-capture and sequential execution engine
(`src/runner.rs`), and the per-directory collection strategy
(`src/collection/strategies/test_per_directory.rs`) are translated into
executable Lean definitions, and the spec's claims about them are proved or
refuted below.

Modelling conventions:
- filesystem paths (`PathBuf`) are lists of path components (`List String`);
- byte buffers (`Vec<u8>`) are lists of characters (`List Char`), with
  `String.data` as the byte view of a string;
- `T`/`TData` payloads stay generic;
- effects (terminal printing, wall-clock durations, thread pools) are elided;
  the sequential (parallelism 1) execution path is the one modelled, and the
  runner model additionally records the list of executed tests so that
  "the run function is invoked once per test" is expressible.
-/

/-- Substring search helper: does `l` start with `p`?  Models Rust
`str::starts_with` on byte sequences. -/
def listStartsWith [DecidableEq α] : List α → List α → Bool
  | _, [] => true
  | [], _ :: _ => false
  | a :: as, p :: ps => a == p && listStartsWith as ps

/-- Substring search: does `l` contain `sub` as a contiguous subsequence?
Models Rust `str::contains`. -/
def listContainsSub [DecidableEq α] : List α → List α → Bool
  | [], sub => listStartsWith ([] : List α) sub
  | a :: rest, sub => listStartsWith (a :: rest) sub || listContainsSub rest sub

/-- `str::contains` on strings, via their character lists. -/
def strContains (s sub : String) : Bool :=
  listContainsSub s.data sub.data

/-- Model of `CollectedTest<T>` (src/collection/mod.rs): name, path,
optional (line, column), and strategy payload. -/
structure CollectedTest (T : Type) where
  name : String
  path : List String
  line_and_column : Option (Nat × Nat)
  data : T
  deriving DecidableEq

/-- Model of `CollectedCategoryOrTest<T>` (src/collection/mod.rs).  The
`category` constructor carries the fields of `CollectedTestCategory<T>`
inline (name, path, children). -/
inductive CollectedCategoryOrTest (T : Type) where
  | category (name : String) (path : List String)
      (children : List (CollectedCategoryOrTest T))
  | test (t : CollectedTest T)

/-- Model of the struct `CollectedTestCategory<T>` (src/collection/mod.rs). -/
structure CollectedTestCategory (T : Type) where
  name : String
  path : List String
  children : List (CollectedCategoryOrTest T)

/-- `CollectedTestCategory::test_count`, unfolded over the children list:
a Test child counts 1, a Category child counts recursively. -/
def testCountChildren {T : Type} : List (CollectedCategoryOrTest T) → Nat
  | [] => 0
  | .test _ :: rest => 1 + testCountChildren rest
  | .category _ _ cs :: rest => testCountChildren cs + testCountChildren rest

/-- `CollectedTestCategory::test_count` (src/collection/mod.rs, lines 32-41). -/
def CollectedTestCategory.test_count {T : Type} (c : CollectedTestCategory T) : Nat :=
  testCountChildren c.children

/-- `CollectedTestCategory::is_empty` (src/collection/mod.rs, lines 53-68),
unfolded over the children list: a Test child makes the category non-empty,
a Category child makes it non-empty iff that child is non-empty itself. -/
def isEmptyChildren {T : Type} : List (CollectedCategoryOrTest T) → Bool
  | [] => true
  | .category _ _ cs :: rest =>
      if isEmptyChildren cs then isEmptyChildren rest else false
  | .test _ :: _ => false

/-- `CollectedTestCategory::is_empty` on the struct. -/
def CollectedTestCategory.is_empty {T : Type} (c : CollectedTestCategory T) : Bool :=
  isEmptyChildren c.children

/-- `CollectedTestCategory::filter_children` (src/collection/mod.rs,
lines 43-51), unfolded over the children list: retain a Test iff its name
contains the filter; recursively filter a Category child and retain it iff
it is non-empty afterwards. -/
def filterChildrenList {T : Type} (filter : String) :
    List (CollectedCategoryOrTest T) → List (CollectedCategoryOrTest T)
  | [] => []
  | .category n p cs :: rest =>
      let cs2 := filterChildrenList filter cs
      if isEmptyChildren cs2 then filterChildrenList filter rest
      else .category n p cs2 :: filterChildrenList filter rest
  | .test t :: rest =>
      if strContains t.name filter then .test t :: filterChildrenList filter rest
      else filterChildrenList filter rest

/-- `CollectedTestCategory::filter_children` on the struct (the Rust method
mutates `self.children` in place; the model returns the updated struct). -/
def CollectedTestCategory.filter_children {T : Type} (c : CollectedTestCategory T)
    (filter : String) : CollectedTestCategory T :=
  { c with children := filterChildrenList filter c.children }

/-- The Test leaves of a children list, in left-to-right discovery order. -/
def testLeaves {T : Type} : List (CollectedCategoryOrTest T) → List (CollectedTest T)
  | [] => []
  | .test t :: rest => t :: testLeaves rest
  | .category _ _ cs :: rest => testLeaves cs ++ testLeaves rest

/-- The accumulator loop `collect_tests` inside
`CollectedTestCategory::into_flat_category` (src/collection/mod.rs,
lines 75-89): pushes every Test leaf onto `output` in discovery order,
descending into Category children. -/
def collectTestsFlat {T : Type} :
    List (CollectedCategoryOrTest T) → List (CollectedCategoryOrTest T) →
    List (CollectedCategoryOrTest T)
  | [], output => output
  | .category _ _ cs :: rest, output =>
      collectTestsFlat rest (collectTestsFlat cs output)
  | .test t :: rest, output => collectTestsFlat rest (output ++ [.test t])

/-- `CollectedTestCategory::into_flat_category` (src/collection/mod.rs,
lines 72-98). -/
def CollectedTestCategory.into_flat_category {T : Type}
    (c : CollectedTestCategory T) : CollectedTestCategory T :=
  { name := c.name, path := c.path, children := collectTestsFlat c.children [] }

/-- `CollectedTestCategory::partition` (src/collection/mod.rs, lines 103-146),
unfolded over the children list.  A Test child goes to the side chosen by the
predicate; a Category child is partitioned recursively and each side is
retained only when non-empty. -/
def partitionChildren {T : Type} (p : CollectedTest T → Bool) :
    List (CollectedCategoryOrTest T) →
    List (CollectedCategoryOrTest T) × List (CollectedCategoryOrTest T)
  | [] => ([], [])
  | .category n pa cs :: rest =>
      let mc := (partitionChildren p cs).1
      let nc := (partitionChildren p cs).2
      let mr := (partitionChildren p rest).1
      let nr := (partitionChildren p rest).2
      ((if isEmptyChildren mc then mr else .category n pa mc :: mr),
       (if isEmptyChildren nc then nr else .category n pa nc :: nr))
  | .test t :: rest =>
      let mr := (partitionChildren p rest).1
      let nr := (partitionChildren p rest).2
      (if p t then (.test t :: mr, nr) else (mr, .test t :: nr))

/-- `CollectedTestCategory::partition` on the struct: both sides keep the
original name and path. -/
def CollectedTestCategory.partition {T : Type} (c : CollectedTestCategory T)
    (p : CollectedTest T → Bool) :
    CollectedTestCategory T × CollectedTestCategory T :=
  ({ name := c.name, path := c.path, children := (partitionChildren p c.children).1 },
   { name := c.name, path := c.path, children := (partitionChildren p c.children).2 })

/-- Is a child a Test leaf? -/
def CollectedCategoryOrTest.isTestChild {T : Type} :
    CollectedCategoryOrTest T → Bool
  | .test _ => true
  | .category _ _ _ => false

/-- The name-validity check of `ensure_valid_test_names`
(src/collection/mod.rs, lines 238-241): only alphanumeric characters,
underscore and the namespace separator are allowed.  The alphanumeric test
in the source is Rust's Unicode-aware `char::is_alphanumeric` --
standard-library code outside this repository -- so it enters the model as
the parameter `is_alphanumeric`; every statement below is proved for an
arbitrary classifier and thus holds for the real Unicode one in
particular. -/
def isValidTestName (is_alphanumeric : Char → Bool) (s : String) : Bool :=
  s.data.all (fun c => is_alphanumeric c || c = '_' || c = ':')

/-- Error type of `collect_tests` (src/collection/mod.rs,
`CollectTestsError`).  The `Io` and `Other` variants arise only inside a
collection strategy, which has already run when our model starts, so they
are not represented. -/
inductive CollectTestsError where
  | invalidTestName (name : String)
  | noTestsFound
  deriving DecidableEq

/-- `ensure_valid_test_names` (src/collection/mod.rs, lines 228-249),
unfolded over the children list; returns the first offending name.
`is_alphanumeric` is the library's character classifier (see
`isValidTestName`). -/
def ensureValidTestNames {T : Type} (is_alphanumeric : Char → Bool) :
    List (CollectedCategoryOrTest T) → Except String Unit
  | [] => .ok ()
  | .category _ _ cs :: rest =>
      match ensureValidTestNames is_alphanumeric cs with
      | .error n => .error n
      | .ok () => ensureValidTestNames is_alphanumeric rest
  | .test t :: rest =>
      if isValidTestName is_alphanumeric t.name then
        ensureValidTestNames is_alphanumeric rest
      else .error t.name

/-- `collect_tests` (src/collection/mod.rs, lines 206-226), modelled from the
point where the strategy has produced `category`; `maybe_filter` is the
resolved `filter_override.or_else(parse_cli_arg_filter)` value. -/
def collect_tests {T : Type} (is_alphanumeric : Char → Bool)
    (category : CollectedTestCategory T) (maybe_filter : Option String) :
    Except CollectTestsError (CollectedTestCategory T) :=
  if category.is_empty then .error .noTestsFound
  else
    match ensureValidTestNames is_alphanumeric category.children with
    | .error n => .error (.invalidTestName n)
    | .ok () =>
        match maybe_filter with
        | some filter => .ok (category.filter_children filter)
        | none => .ok category

/-- Model of `TestResult` (src/runner.rs, lines 45-55).  A `SubTestResult`
struct (name, result) is modelled as a pair `String × TestResult`. -/
inductive TestResult where
  | passed
  | ignored
  | failed (output : List Char)
  | subTests (sub_tests : List (String × TestResult))

mutual

/-- `TestResult::is_failed` (src/runner.rs, lines 58-66). -/
def TestResult.is_failed : TestResult → Bool
  | .passed => false
  | .ignored => false
  | .failed _ => true
  | .subTests sub_tests => anySubTestFailed sub_tests

/-- The `sub_tests.iter().any(|s| s.result.is_failed())` loop. -/
def anySubTestFailed : List (String × TestResult) → Bool
  | [] => false
  | (_, r) :: rest => r.is_failed || anySubTestFailed rest

end

/-- The `failure_output` accumulation of `output_sub_tests` inside
`build_end_test_message` (src/runner.rs, lines 330-385): each failed
sub-test appends its output, separated by a newline byte when the buffer is
already non-empty; nested sub-test lists recurse into the same buffer.
The colored `runner_output` terminal string is not modelled. -/
def subTestsFailureOutput : List (String × TestResult) → List Char → List Char
  | [], acc => acc
  | (_, .passed) :: rest, acc => subTestsFailureOutput rest acc
  | (_, .ignored) :: rest, acc => subTestsFailureOutput rest acc
  | (_, .failed out) :: rest, acc =>
      subTestsFailureOutput rest
        (if acc.isEmpty then acc ++ out else acc ++ '\n' :: out)
  | (_, .subTests subs) :: rest, acc =>
      subTestsFailureOutput rest (subTestsFailureOutput subs acc)

/-- The failure-bytes half of `build_end_test_message` (src/runner.rs,
lines 326-421): `Failed` yields its own output, `SubTests` the accumulated
outputs of its failed entries, passing/ignored results yield nothing. -/
def buildFailureOutput : TestResult → List Char
  | .passed => []
  | .ignored => []
  | .failed out => out
  | .subTests subs => subTestsFailureOutput subs []

/-- The observable behaviour of a closure handed to the panic-capture
machinery: either it returns a value or it panics, in which case the
installed hook captures the panic info text and an optional backtrace. -/
inductive PanicOutcome (α : Type) where
  | returned (value : α)
  | panicked (info : String) (backtrace : Option String)

/-- `TestResult::from_maybe_panic_or_result` (src/runner.rs, lines 86-145):
a normal return is passed through; a panic becomes `Failed` whose output is
the formatted panic info followed, when a backtrace was captured, by a
newline and the backtrace.  The hook bookkeeping (global count, thread-local
slot) has no observable effect on the returned value and is elided; the
panic never escapes (the function is total). -/
def from_maybe_panic_or_result : PanicOutcome TestResult → TestResult
  | .returned r => r
  | .panicked info backtrace =>
      .failed (info.data ++
        (match backtrace with
         | some b => '\n' :: b.data
         | none => []))

/-- `TestResult::from_maybe_panic` (src/runner.rs, lines 72-79): wraps the
unit closure so that a normal return becomes `TestResult::Passed`. -/
def from_maybe_panic : PanicOutcome Unit → TestResult
  | .returned _ => from_maybe_panic_or_result (.returned .passed)
  | .panicked info backtrace =>
      from_maybe_panic_or_result (.panicked info backtrace)

/-- Model of the `Failure` record (src/runner.rs, lines 20-23). -/
structure Failure (T : Type) where
  test : CollectedTest T
  output : List Char

/-- The failure-aggregation state of `Context` (src/runner.rs, lines 25-29),
extended with the instrumentation field `executed` recording each invocation
of the user run function, in order. -/
structure RunContext (T : Type) where
  executed : List (CollectedTest T)
  failures : List (Failure T)

/-- The sequential branch of `run_tests_for_category` (src/runner.rs,
lines 307-323): run each test in order, recording a failure exactly when
its result `is_failed`, with the failure bytes from
`build_end_test_message`. -/
def runTestsForCategory {T : Type} (run : CollectedTest T → TestResult) :
    List (CollectedTest T) → RunContext T → RunContext T
  | [], ctx => ctx
  | t :: rest, ctx =>
      let result := run t
      runTestsForCategory run rest
        { executed := ctx.executed ++ [t],
          failures :=
            if result.is_failed then
              ctx.failures ++ [{ test := t, output := buildFailureOutput result }]
            else ctx.failures }

/-- The direct Test children of a children list (the `tests` vector built by
`run_category`, src/runner.rs, lines 240-251), in order. -/
def directTests {T : Type} :
    List (CollectedCategoryOrTest T) → List (CollectedTest T)
  | [] => []
  | .test t :: rest => t :: directTests rest
  | .category _ _ _ :: rest => directTests rest

mutual

/-- `run_category` (src/runner.rs, lines 236-260) on a children list: run
the directly-owned tests first, then recurse into the sub-categories in
order.  (The source skips `run_tests_for_category` when there are no direct
tests; that call is a no-op in that case, so the model always makes it.) -/
def runCategoryChildren {T : Type} (run : CollectedTest T → TestResult)
    (children : List (CollectedCategoryOrTest T)) (ctx : RunContext T) :
    RunContext T :=
  runSubCategories run children (runTestsForCategory run (directTests children) ctx)
termination_by (sizeOf children, 1)

/-- The `for category in categories` recursion of `run_category`
(src/runner.rs, lines 257-259). -/
def runSubCategories {T : Type} (run : CollectedTest T → TestResult) :
    List (CollectedCategoryOrTest T) → RunContext T → RunContext T
  | [], ctx => ctx
  | .test _ :: rest, ctx => runSubCategories run rest ctx
  | .category _ _ cs :: rest, ctx =>
      runSubCategories run rest (runCategoryChildren run cs ctx)
termination_by l _ => (sizeOf l, 0)

end

/-- The final outcome of `run_tests` (src/runner.rs, lines 175-234):
`earlyNoTests` is the immediate `return` when the (possibly filtered) tree
holds no tests; `panicked failed total` is the terminal
`panic!("{} failed of {}", ...)`; `success total` is the normal
"`{total}` tests passed" exit. -/
inductive RunOutcome where
  | earlyNoTests
  | success (total : Nat)
  | panicked (failed : Nat) (total : Nat)
  deriving DecidableEq

/-- `run_tests` (src/runner.rs, lines 175-234) in sequential mode
(`parallelism == 1`, no thread pool): returns the final context together
with the run's outcome. -/
def run_tests {T : Type} (run : CollectedTest T → TestResult)
    (category : CollectedTestCategory T) : RunContext T × RunOutcome :=
  let total := category.test_count
  if total = 0 then ({ executed := [], failures := [] }, .earlyNoTests)
  else
    let ctx := runCategoryChildren run category.children
      { executed := [], failures := [] }
    if ctx.failures.isEmpty then (ctx, .success total)
    else (ctx, .panicked ctx.failures.length total)

/-- A filesystem entry as seen by the per-directory strategy: a plain file or
a directory with its own entries.  (Symlinks and I/O failures are not
modelled.) -/
inductive FsEntry where
  | file (name : String)
  | dir (name : String) (entries : List FsEntry)

/-- `DirEntry::file_name`. -/
def FsEntry.entryName : FsEntry → String
  | .file n => n
  | .dir n _ => n

/-- `FileType::is_dir`. -/
def FsEntry.isDirEntry : FsEntry → Bool
  | .file _ => false
  | .dir _ _ => true

/-- Lexicographic byte order on names, for `entries.sort_by_key(|a| a.file_name())`
(src/collection/strategies/helpers.rs, line 18). -/
def charListLe : List Char → List Char → Bool
  | [], _ => true
  | _ :: _, [] => false
  | a :: as, b :: bs => if a < b then true else if b < a then false else charListLe as bs

/-- Insert into a name-sorted entry list (stable insertion step). -/
def insertEntrySorted (e : FsEntry) : List FsEntry → List FsEntry
  | [] => [e]
  | x :: xs =>
      if charListLe e.entryName.data x.entryName.data then e :: x :: xs
      else x :: insertEntrySorted e xs

/-- Stable insertion sort by file name, modelling `sort_by_key`. -/
def sortEntries : List FsEntry → List FsEntry
  | [] => []
  | x :: xs => insertEntrySorted x (sortEntries xs)

/-- The retention predicate of `read_dir_entries`
(src/collection/strategies/helpers.rs, lines 14-17): drop hidden entries
(name starting with a period) and the readme file (ASCII-lowercased name
equal to "readme.md"). -/
def keepDirEntry (e : FsEntry) : Bool :=
  !(match e.entryName.data with
    | [] => false
    | c :: _ => c = '.')
  && !(⟨e.entryName.data.map Char.toLower⟩ == ("readme.md" : String))

/-- `read_dir_entries` (src/collection/strategies/helpers.rs, lines 7-20):
list the directory, drop hidden entries and the readme, sort by name. -/
def read_dir_entries (entries : List FsEntry) : List FsEntry :=
  sortEntries (entries.filter keepDirEntry)

/-- `append_to_category_name` (src/collection/strategies/helpers.rs,
lines 22-27). -/
def append_to_category_name (category_name new_part : String) : String :=
  category_name ++ "::" ++ new_part

/-- `test_file_path.exists()` for a subdirectory with raw entry list
`entries`: some entry bears the marker name.  (The existence check goes to
the real filesystem, so it is on the unfiltered entries.) -/
def markerExistsIn (entries : List FsEntry) (marker : String) : Bool :=
  entries.any (fun e => e.entryName == marker)

/-- The error raised by `collect_test_per_directory`
(src/collection/strategies/test_per_directory.rs, line 90) when a non-empty
directory contains no subdirectory: "Could not find marker in directory
tree". -/
inductive PerDirectoryError where
  | missingMarkerFile (file_name : String) (dir_path : List String)
  deriving DecidableEq

theorem sizeOf_filter_le (p : FsEntry → Bool) (l : List FsEntry) :
    sizeOf (l.filter p) ≤ sizeOf l := by
  induction l with
  | nil => simp
  | cons x xs ih =>
      simp only [List.filter]
      cases p x <;> simp <;> omega

theorem sizeOf_insertEntrySorted (e : FsEntry) (l : List FsEntry) :
    sizeOf (insertEntrySorted e l) = 1 + sizeOf e + sizeOf l := by
  induction l with
  | nil => simp [insertEntrySorted]
  | cons x xs ih =>
      simp only [insertEntrySorted]
      split
      · simp
      · simp [ih]
        omega

theorem sizeOf_sortEntries (l : List FsEntry) :
    sizeOf (sortEntries l) = sizeOf l := by
  induction l with
  | nil => rfl
  | cons x xs ih =>
      simp [sortEntries, sizeOf_insertEntrySorted, ih]

theorem sizeOf_read_dir_entries_le (entries : List FsEntry) :
    sizeOf (read_dir_entries entries) ≤ sizeOf entries := by
  calc sizeOf (read_dir_entries entries)
      = sizeOf (entries.filter keepDirEntry) := sizeOf_sortEntries _
    _ ≤ sizeOf entries := sizeOf_filter_le _ _

mutual

/-- `collect_test_per_directory`
(src/collection/strategies/test_per_directory.rs, lines 34-94) applied to a
directory at `dir_path` with raw entry list `entries`: iterate over the
filtered, sorted entries; a subdirectory containing the marker file becomes
a Test, one without it is recursed into and contributes a Category when
non-empty; after the loop, a non-empty directory in which no subdirectory
was found is an error. -/
def collect_test_per_directory (category_name : String) (dir_path : List String)
    (dir_test_file_name : String) (entries : List FsEntry) :
    Except PerDirectoryError (List (CollectedCategoryOrTest Unit)) :=
  match collectDirLoop category_name dir_path dir_test_file_name
      (read_dir_entries entries) with
  | .error e => .error e
  | .ok tests =>
      if !(read_dir_entries entries).any FsEntry.isDirEntry
          && !(read_dir_entries entries).isEmpty then
        .error (.missingMarkerFile dir_test_file_name dir_path)
      else .ok tests
termination_by (1 + sizeOf entries, 1)
decreasing_by
  have hle := sizeOf_read_dir_entries_le entries
  exact Prod.Lex.left _ _ (by omega)

/-- The `for entry in read_dir_entries(dir_path)?` loop of
`collect_test_per_directory`
(src/collection/strategies/test_per_directory.rs, lines 43-84). -/
def collectDirLoop (category_name : String) (dir_path : List String)
    (dir_test_file_name : String) :
    List FsEntry → Except PerDirectoryError (List (CollectedCategoryOrTest Unit))
  | [] => .ok []
  | .file _ :: rest => collectDirLoop category_name dir_path dir_test_file_name rest
  | .dir n sub :: rest =>
      if markerExistsIn sub dir_test_file_name then
        match collectDirLoop category_name dir_path dir_test_file_name rest with
        | .error e => .error e
        | .ok ts =>
            .ok (.test { name := append_to_category_name category_name n,
                         path := dir_path ++ [n, dir_test_file_name],
                         line_and_column := none, data := () } :: ts)
      else
        match collect_test_per_directory (append_to_category_name category_name n)
            (dir_path ++ [n]) dir_test_file_name sub with
        | .error e => .error e
        | .ok children =>
            match collectDirLoop category_name dir_path dir_test_file_name rest with
            | .error e => .error e
            | .ok ts =>
                .ok (if children.isEmpty then ts
                     else .category (append_to_category_name category_name n)
                       (dir_path ++ [n]) children :: ts)
termination_by l => (sizeOf l, 0)
decreasing_by
  all_goals exact Prod.Lex.left _ _ (by simp
                                        all_goals omega)

end

/-- The `TestCollectionStrategy` implementation for
`TestPerDirectoryCollectionStrategy`
(src/collection/strategies/test_per_directory.rs, lines 29-105): the root
category is named after the base directory's file name and keeps the base
path. -/
def TestPerDirectoryCollectionStrategy.collect_tests (file_name : String)
    (base_path : List String) (base_entries : List FsEntry) :
    Except PerDirectoryError (CollectedTestCategory Unit) :=
  let category_name := base_path.getLast?.getD ""
  match collect_test_per_directory category_name base_path file_name base_entries with
  | .error e => .error e
  | .ok children => .ok { name := category_name, path := base_path, children }

/-- No Category node anywhere in this children forest is empty (in the sense
of `CollectedTestCategory::is_empty`). -/
def noEmptyCategories {T : Type} : List (CollectedCategoryOrTest T) → Bool
  | [] => true
  | .test _ :: rest => noEmptyCategories rest
  | .category _ _ cs :: rest =>
      !isEmptyChildren cs && (noEmptyCategories cs && noEmptyCategories rest)

/-- Pointwise image of one child under the matching side of `partition`:
a Test child is kept as is, a Category child is replaced by its
recursively-partitioned matching side.  Used to state that `partition` is
order-preserving (stable). -/
def partitionMapFst {T : Type} (p : CollectedTest T → Bool) :
    CollectedCategoryOrTest T → CollectedCategoryOrTest T
  | .test t => .test t
  | .category n pa cs => .category n pa (partitionChildren p cs).1

/-- Pointwise image of one child under the non-matching side of `partition`. -/
def partitionMapSnd {T : Type} (p : CollectedTest T → Bool) :
    CollectedCategoryOrTest T → CollectedCategoryOrTest T
  | .test t => .test t
  | .category n pa cs => .category n pa (partitionChildren p cs).2

mutual

/-- The order in which the sequential engine (`run_category`) reaches the
Test leaves of a children forest: the directly-owned tests first, then the
leaves of each sub-category in order. -/
def seqOrderChildren {T : Type} (children : List (CollectedCategoryOrTest T)) :
    List (CollectedTest T) :=
  directTests children ++ seqOrderSubs children
termination_by (sizeOf children, 1)

/-- Leaves contributed by the sub-categories of a children forest, in the
order the sequential engine visits them. -/
def seqOrderSubs {T : Type} :
    List (CollectedCategoryOrTest T) → List (CollectedTest T)
  | [] => []
  | .test _ :: rest => seqOrderSubs rest
  | .category _ _ cs :: rest => seqOrderChildren cs ++ seqOrderSubs rest
termination_by l => (sizeOf l, 0)

end

/-- The failure records that a list of tests contributes when executed by
`run_test`: one record per failed result, in execution order, with the
output bytes extracted by `build_end_test_message`. -/
def mkFailures {T : Type} (run : CollectedTest T → TestResult)
    (tests : List (CollectedTest T)) : List (Failure T) :=
  (tests.filter (fun t => (run t).is_failed)).map
    (fun t => { test := t, output := buildFailureOutput (run t) })

/-! ## Properties of `filter_children` (claims C5 and C7) -/

theorem test_mem_filterChildrenList {T : Type} (f : String)
    (cs : List (CollectedCategoryOrTest T)) (t : CollectedTest T) :
    (.test t ∈ filterChildrenList f cs) ↔
      (.test t ∈ cs ∧ strContains t.name f = true) := by
  induction cs using filterChildrenList.induct f with
  | case1 => simp [filterChildrenList]
  | case2 n p cs rest cs2 hemp ih1 ih2 =>
      simp only [filterChildrenList] at *
      simp [hemp, ih2]
  | case3 n p cs rest cs2 hemp ih1 ih2 =>
      simp only [filterChildrenList] at *
      simp only [Bool.not_eq_true] at hemp
      simp [hemp, ih2]
  | case4 t2 rest hc ih =>
      simp only [filterChildrenList, hc, if_true, List.mem_cons, ih,
        CollectedCategoryOrTest.test.injEq]
      constructor
      · rintro (rfl | ⟨hm, hcont⟩)
        · exact ⟨Or.inl rfl, hc⟩
        · exact ⟨Or.inr hm, hcont⟩
      · rintro ⟨rfl | hm, hcont⟩
        · exact Or.inl rfl
        · exact Or.inr ⟨hm, hcont⟩
  | case5 t2 rest hc ih =>
      simp only [Bool.not_eq_true] at hc
      simp only [filterChildrenList, hc, Bool.false_eq_true, if_false,
        List.mem_cons, ih, CollectedCategoryOrTest.test.injEq]
      constructor
      · rintro ⟨hm, hcont⟩
        exact ⟨Or.inr hm, hcont⟩
      · rintro ⟨rfl | hm, hcont⟩
        · rw [hc] at hcont
          cases hcont
        · exact ⟨hm, hcont⟩

theorem nonempty_of_mem_noEmptyCategories {T : Type}
    {l : List (CollectedCategoryOrTest T)} {n : String} {p : List String}
    {cs : List (CollectedCategoryOrTest T)}
    (hne : noEmptyCategories l = true) (hmem : .category n p cs ∈ l) :
    isEmptyChildren cs = false := by
  induction l with
  | nil => cases hmem
  | cons x rest ih =>
      rcases List.mem_cons.mp hmem with h | h
      · subst h
        simp only [noEmptyCategories, Bool.and_eq_true, Bool.not_eq_true'] at hne
        exact hne.1
      · cases x with
        | test t =>
            simp only [noEmptyCategories] at hne
            exact ih hne h
        | category n2 p2 cs2 =>
            simp only [noEmptyCategories, Bool.and_eq_true] at hne
            exact ih hne.2.2 h

theorem noEmptyCategories_filterChildrenList {T : Type} (f : String)
    (cs : List (CollectedCategoryOrTest T)) :
    noEmptyCategories (filterChildrenList f cs) = true := by
  induction cs using filterChildrenList.induct f with
  | case1 => simp [filterChildrenList, noEmptyCategories]
  | case2 n p cs rest cs2 hemp ih1 ih2 =>
      simp only [filterChildrenList] at *
      simp [hemp, ih2]
  | case3 n p cs rest cs2 hemp ih1 ih2 =>
      simp only [filterChildrenList] at *
      simp only [Bool.not_eq_true] at hemp
      simp [hemp, noEmptyCategories, ih1, ih2]
  | case4 t2 rest hc ih =>
      simp [filterChildrenList, hc, noEmptyCategories, ih]
  | case5 t2 rest hc ih =>
      simp only [Bool.not_eq_true] at hc
      simp [filterChildrenList, hc, ih]

theorem cat_mem_filterChildrenList_of {T : Type} (f : String)
    {cs cs0 : List (CollectedCategoryOrTest T)} {n : String} {p : List String}
    (hmem : .category n p cs0 ∈ cs)
    (hne : isEmptyChildren (filterChildrenList f cs0) = false) :
    .category n p (filterChildrenList f cs0) ∈ filterChildrenList f cs := by
  induction cs with
  | nil => cases hmem
  | cons x rest ih =>
      rcases List.mem_cons.mp hmem with h | h
      · subst h
        simp [filterChildrenList, hne]
      · cases x with
        | test t =>
            simp only [filterChildrenList]
            split
            · exact List.mem_cons_of_mem _ (ih h)
            · exact ih h
        | category n2 p2 cs2 =>
            simp only [filterChildrenList]
            split
            · exact ih h
            · exact List.mem_cons_of_mem _ (ih h)

theorem filterChildrenList_idem {T : Type} (f : String)
    (cs : List (CollectedCategoryOrTest T)) :
    filterChildrenList f (filterChildrenList f cs) = filterChildrenList f cs := by
  induction cs using filterChildrenList.induct f with
  | case1 => simp [filterChildrenList]
  | case2 n p cs rest cs2 hemp ih1 ih2 =>
      simp only [filterChildrenList] at *
      simp [hemp, ih2]
  | case3 n p cs rest cs2 hemp ih1 ih2 =>
      simp only [filterChildrenList] at *
      simp only [Bool.not_eq_true] at hemp
      simp only [filterChildrenList, ih1, hemp, if_false, Bool.false_eq_true,
        ih2]
  | case4 t2 rest hc ih =>
      simp [filterChildrenList, hc, ih]
  | case5 t2 rest hc ih =>
      simp only [Bool.not_eq_true] at hc
      simp [filterChildrenList, hc, ih]

/-- Claim C5: after `filter_children(s)`, a direct Test child is retained
iff its fully-qualified name contains `s`; a direct sub-Category is retained
(appearing with recursively filtered children) iff it is non-empty after
recursively filtering its own children; no empty Category remains anywhere
below the root; and the root category itself is never removed — it keeps its
name and path even when filtered to empty. -/
theorem filter_children_spec {T : Type} (f : String) (c : CollectedTestCategory T) :
    ((c.filter_children f).name = c.name ∧ (c.filter_children f).path = c.path)
    ∧ (∀ t : CollectedTest T,
        .test t ∈ (c.filter_children f).children ↔
          (.test t ∈ c.children ∧ strContains t.name f = true))
    ∧ (∀ (n : String) (p : List String) (cs0 : List (CollectedCategoryOrTest T)),
        .category n p cs0 ∈ c.children →
          (.category n p (filterChildrenList f cs0) ∈ (c.filter_children f).children ↔
            isEmptyChildren (filterChildrenList f cs0) = false))
    ∧ noEmptyCategories (c.filter_children f).children = true := by
  refine ⟨⟨rfl, rfl⟩, ?_, ?_, ?_⟩
  · intro t
    exact test_mem_filterChildrenList f c.children t
  · intro n p cs0 hmem
    constructor
    · intro hin
      exact nonempty_of_mem_noEmptyCategories
        (noEmptyCategories_filterChildrenList f c.children) hin
    · intro hne
      exact cat_mem_filterChildrenList_of f hmem hne
  · exact noEmptyCategories_filterChildrenList f c.children

/-- Claim C7: `filter_children` is idempotent — filtering twice with the
same substring yields exactly the same tree as filtering once. -/
theorem filter_children_idempotent {T : Type} (f : String)
    (c : CollectedTestCategory T) :
    (c.filter_children f).filter_children f = c.filter_children f := by
  simp [CollectedTestCategory.filter_children, filterChildrenList_idem]

/-! ## Properties of `partition` (claims C4 and C10) and
`into_flat_category` (claim C6) -/

theorem isEmptyChildren_iff_testLeaves {T : Type}
    (cs : List (CollectedCategoryOrTest T)) :
    isEmptyChildren cs = true ↔ testLeaves cs = [] := by
  induction cs using testLeaves.induct with
  | case1 => simp [isEmptyChildren, testLeaves]
  | case2 t rest => simp [isEmptyChildren, testLeaves]
  | case3 n p cs rest ih1 ih2 =>
      cases h : isEmptyChildren cs
      case false =>
        have h1 : testLeaves cs ≠ [] := by
          intro hx
          have h2 := ih1.mpr hx
          rw [h] at h2
          cases h2
        simp [isEmptyChildren, testLeaves, h, h1]
      case true =>
        have h1 : testLeaves cs = [] := ih1.mp h
        simp [isEmptyChildren, testLeaves, h, h1, ih2]

theorem testLeaves_partitionChildren_fst {T : Type} (p : CollectedTest T → Bool)
    (cs : List (CollectedCategoryOrTest T)) :
    testLeaves (partitionChildren p cs).1 = (testLeaves cs).filter p := by
  induction cs using partitionChildren.induct p with
  | case1 => simp [partitionChildren, testLeaves]
  | case2 n pa cs rest ih1 ih2 =>
      simp only [partitionChildren, testLeaves, List.filter_append, ← ih1, ← ih2]
      split
      · next h => rw [(isEmptyChildren_iff_testLeaves _).mp h]; simp
      · simp [testLeaves]
  | case3 t rest hp ih =>
      simp [partitionChildren, testLeaves, hp, ih]
  | case4 t rest hp ih =>
      simp only [Bool.not_eq_true] at hp
      simp [partitionChildren, testLeaves, hp, ih]

theorem testLeaves_partitionChildren_snd {T : Type} (p : CollectedTest T → Bool)
    (cs : List (CollectedCategoryOrTest T)) :
    testLeaves (partitionChildren p cs).2 =
      (testLeaves cs).filter (fun t => !(p t)) := by
  induction cs using partitionChildren.induct p with
  | case1 => simp [partitionChildren, testLeaves]
  | case2 n pa cs rest ih1 ih2 =>
      simp only [partitionChildren, testLeaves, List.filter_append, ← ih1, ← ih2]
      split
      · next h => rw [(isEmptyChildren_iff_testLeaves _).mp h]; simp
      · simp [testLeaves]
  | case3 t rest hp ih =>
      simp [partitionChildren, testLeaves, hp, ih]
  | case4 t rest hp ih =>
      simp only [Bool.not_eq_true] at hp
      simp [partitionChildren, testLeaves, hp, ih]

theorem noEmptyCategories_partitionChildren_fst {T : Type}
    (p : CollectedTest T → Bool) (cs : List (CollectedCategoryOrTest T)) :
    noEmptyCategories (partitionChildren p cs).1 = true := by
  induction cs using partitionChildren.induct p with
  | case1 => simp [partitionChildren, noEmptyCategories]
  | case2 n pa cs rest ih1 ih2 =>
      simp only [partitionChildren]
      split
      · exact ih2
      · next h =>
          simp only [Bool.not_eq_true] at h
          simp [noEmptyCategories, h, ih1, ih2]
  | case3 t rest hp ih =>
      simp [partitionChildren, hp, noEmptyCategories, ih]
  | case4 t rest hp ih =>
      simp only [Bool.not_eq_true] at hp
      simp [partitionChildren, hp, ih]

theorem noEmptyCategories_partitionChildren_snd {T : Type}
    (p : CollectedTest T → Bool) (cs : List (CollectedCategoryOrTest T)) :
    noEmptyCategories (partitionChildren p cs).2 = true := by
  induction cs using partitionChildren.induct p with
  | case1 => simp [partitionChildren, noEmptyCategories]
  | case2 n pa cs rest ih1 ih2 =>
      simp only [partitionChildren]
      split
      · exact ih2
      · next h =>
          simp only [Bool.not_eq_true] at h
          simp [noEmptyCategories, h, ih1, ih2]
  | case3 t rest hp ih =>
      simp [partitionChildren, hp, ih]
  | case4 t rest hp ih =>
      simp only [Bool.not_eq_true] at hp
      simp [partitionChildren, hp, noEmptyCategories, ih]

theorem testCountChildren_eq_length_testLeaves {T : Type}
    (cs : List (CollectedCategoryOrTest T)) :
    testCountChildren cs = (testLeaves cs).length := by
  induction cs using testLeaves.induct with
  | case1 => simp [testCountChildren, testLeaves]
  | case2 t rest ih =>
      simp [testCountChildren, testLeaves, ih]
      omega
  | case3 n p cs rest ih1 ih2 =>
      simp [testCountChildren, testLeaves, ih1, ih2]

theorem length_filter_bool_split {α : Type} (p : α → Bool) (l : List α) :
    (l.filter p).length + (l.filter (fun a => !(p a))).length = l.length := by
  induction l with
  | nil => simp
  | cons a l ih =>
      cases h : p a <;> simp [List.filter, h] <;> omega

/-- Claim C4: `partition(p)` splits the tree so that the two sides' test
counts sum to the original count, the Test leaves of the matching side are
exactly the leaves satisfying `p` (and of the non-matching side exactly
those falsifying it), both sides keep the original name and path, and no
empty Category is retained anywhere on either side. -/
theorem partition_spec {T : Type} (p : CollectedTest T → Bool)
    (c : CollectedTestCategory T) :
    ((c.partition p).1.test_count + (c.partition p).2.test_count = c.test_count)
    ∧ testLeaves (c.partition p).1.children = (testLeaves c.children).filter p
    ∧ testLeaves (c.partition p).2.children =
        (testLeaves c.children).filter (fun t => !(p t))
    ∧ (c.partition p).1.name = c.name ∧ (c.partition p).1.path = c.path
    ∧ (c.partition p).2.name = c.name ∧ (c.partition p).2.path = c.path
    ∧ noEmptyCategories (c.partition p).1.children = true
    ∧ noEmptyCategories (c.partition p).2.children = true := by
  refine ⟨?_, ?_, ?_, rfl, rfl, rfl, rfl, ?_, ?_⟩
  · show testCountChildren (partitionChildren p c.children).1 +
      testCountChildren (partitionChildren p c.children).2 =
      testCountChildren c.children
    rw [testCountChildren_eq_length_testLeaves,
      testCountChildren_eq_length_testLeaves,
      testCountChildren_eq_length_testLeaves,
      testLeaves_partitionChildren_fst, testLeaves_partitionChildren_snd,
      length_filter_bool_split]
  · exact testLeaves_partitionChildren_fst p c.children
  · exact testLeaves_partitionChildren_snd p c.children
  · exact noEmptyCategories_partitionChildren_fst p c.children
  · exact noEmptyCategories_partitionChildren_snd p c.children

/-- Claim C10: `partition` is stable — on both sides, the surviving children
of every Category appear in the same relative left-to-right order as in the
input (each side's children list is an order-preserving selection from the
input children list, with Category children replaced by their partitioned
versions).  Quantifying over every children list covers every Category of
the two output trees. -/
theorem partition_stable {T : Type} (p : CollectedTest T → Bool)
    (c : CollectedTestCategory T) :
    (∀ cs : List (CollectedCategoryOrTest T),
      (partitionChildren p cs).1.Sublist (cs.map (partitionMapFst p))
      ∧ (partitionChildren p cs).2.Sublist (cs.map (partitionMapSnd p)))
    ∧ (c.partition p).1.children.Sublist (c.children.map (partitionMapFst p))
    ∧ (c.partition p).2.children.Sublist (c.children.map (partitionMapSnd p)) := by
  have main : ∀ cs : List (CollectedCategoryOrTest T),
      (partitionChildren p cs).1.Sublist (cs.map (partitionMapFst p))
      ∧ (partitionChildren p cs).2.Sublist (cs.map (partitionMapSnd p)) := by
    intro cs
    induction cs using partitionChildren.induct p with
    | case1 => simp [partitionChildren]
    | case2 n pa cs rest ih1 ih2 =>
        constructor
        · simp only [partitionChildren, List.map_cons, partitionMapFst]
          split
          · exact List.Sublist.cons _ ih2.1
          · exact List.Sublist.cons₂ _ ih2.1
        · simp only [partitionChildren, List.map_cons, partitionMapSnd]
          split
          · exact List.Sublist.cons _ ih2.2
          · exact List.Sublist.cons₂ _ ih2.2
    | case3 t rest hp ih =>
        constructor
        · simp only [partitionChildren, hp, if_true, List.map_cons, partitionMapFst]
          exact List.Sublist.cons₂ _ ih.1
        · simp only [partitionChildren, hp, if_true, List.map_cons, partitionMapSnd]
          exact List.Sublist.cons _ ih.2
    | case4 t rest hp ih =>
        simp only [Bool.not_eq_true] at hp
        constructor
        · simp only [partitionChildren, hp, Bool.false_eq_true, if_false,
            List.map_cons, partitionMapFst]
          exact List.Sublist.cons _ ih.1
        · simp only [partitionChildren, hp, Bool.false_eq_true, if_false,
            List.map_cons, partitionMapSnd]
          exact List.Sublist.cons₂ _ ih.2
  exact ⟨main, (main c.children).1, (main c.children).2⟩

theorem collectTestsFlat_eq {T : Type} (cs out : List (CollectedCategoryOrTest T)) :
    collectTestsFlat cs out = out ++ (testLeaves cs).map .test := by
  induction cs, out using collectTestsFlat.induct with
  | case1 out => simp [collectTestsFlat, testLeaves]
  | case2 n p cs rest out ih1 ih2 =>
      simp only [collectTestsFlat, testLeaves, List.map_append]
      rw [ih2, ih1, List.append_assoc]
  | case3 t rest out ih =>
      simp [collectTestsFlat, testLeaves, ih]

theorem testLeaves_map_test {T : Type} (l : List (CollectedTest T)) :
    testLeaves (l.map .test) = l := by
  induction l with
  | nil => simp [testLeaves]
  | cons t rest ih => simp [testLeaves, ih]

theorem testCountChildren_map_test {T : Type} (l : List (CollectedTest T)) :
    testCountChildren (l.map .test) = l.length := by
  induction l with
  | nil => simp [testCountChildren]
  | cons t rest ih => simp [testCountChildren, ih]; omega

theorem all_isTestChild_map_test {T : Type} (l : List (CollectedTest T)) :
    ((l.map .test).all (CollectedCategoryOrTest.isTestChild (T := T))) = true := by
  induction l with
  | nil => simp
  | cons t rest ih => simp [CollectedCategoryOrTest.isTestChild, ih]

/-- Claim C6: `into_flat_category` keeps the root name and path, its children
are exactly the Test leaves of the original tree in left-to-right discovery
order (so no Category child remains and the leaf count is preserved), and
flattening is idempotent. -/
theorem into_flat_category_spec {T : Type} (c : CollectedTestCategory T) :
    (c.into_flat_category).name = c.name
    ∧ (c.into_flat_category).path = c.path
    ∧ (c.into_flat_category).children = (testLeaves c.children).map .test
    ∧ (c.into_flat_category).children.all CollectedCategoryOrTest.isTestChild = true
    ∧ (c.into_flat_category).test_count = c.test_count
    ∧ (c.into_flat_category).into_flat_category = c.into_flat_category := by
  refine ⟨rfl, rfl, ?_, ?_, ?_, ?_⟩
  · show collectTestsFlat c.children [] = (testLeaves c.children).map .test
    rw [collectTestsFlat_eq]
    simp
  · show (collectTestsFlat c.children []).all _ = true
    rw [collectTestsFlat_eq]
    simp only [List.nil_append]
    exact all_isTestChild_map_test _
  · show testCountChildren (collectTestsFlat c.children []) =
      testCountChildren c.children
    rw [collectTestsFlat_eq]
    simp only [List.nil_append, testCountChildren_map_test]
    rw [testCountChildren_eq_length_testLeaves]
  · show CollectedTestCategory.into_flat_category _ = _
    simp only [CollectedTestCategory.into_flat_category]
    rw [collectTestsFlat_eq, collectTestsFlat_eq]
    simp [testLeaves_map_test]

/-! ## Panic capture (claim C1) -/

theorem listStartsWith_append {α : Type} [DecidableEq α] (l r : List α) :
    listStartsWith (l ++ r) l = true := by
  induction l with
  | nil => cases r <;> simp [listStartsWith]
  | cons a as ih => simp [listStartsWith, ih]

theorem listContainsSub_of_startsWith {α : Type} [DecidableEq α]
    {h n : List α} (hs : listStartsWith h n = true) :
    listContainsSub h n = true := by
  cases h with
  | nil => simpa [listContainsSub] using hs
  | cons a rest => simp [listContainsSub, hs]

theorem listContainsSub_append_right {α : Type} [DecidableEq α] (l r : List α) :
    listContainsSub (l ++ r) l = true :=
  listContainsSub_of_startsWith (listStartsWith_append l r)

/-- Claim C1: a closure protected by `from_maybe_panic` /
`from_maybe_panic_or_result` never lets the panic escape (the model
functions are total); when the closure panics, the result is
`TestResult::Failed` and its captured output bytes contain the panic
message; when it returns normally, `from_maybe_panic` yields `Passed` and
`from_maybe_panic_or_result` yields the closure's own result. -/
theorem from_maybe_panic_spec :
    (∀ f : PanicOutcome TestResult,
      (∀ r, f = .returned r → from_maybe_panic_or_result f = r)
      ∧ (∀ info bt, f = .panicked info bt →
          ∃ out, from_maybe_panic_or_result f = .failed out
            ∧ listContainsSub out info.data = true))
    ∧ (∀ g : PanicOutcome Unit,
      (∀ u, g = .returned u → from_maybe_panic g = .passed)
      ∧ (∀ info bt, g = .panicked info bt →
          ∃ out, from_maybe_panic g = .failed out
            ∧ listContainsSub out info.data = true)) := by
  constructor
  · intro f
    constructor
    · intro r h
      subst h
      rfl
    · intro info bt h
      subst h
      exact ⟨_, rfl, listContainsSub_append_right _ _⟩
  · intro g
    constructor
    · intro u h
      subst h
      rfl
    · intro info bt h
      subst h
      exact ⟨_, rfl, listContainsSub_append_right _ _⟩

/-- Concrete instantiation of `from_maybe_panic_spec`. -/
theorem from_maybe_panic_spec_witness :
    from_maybe_panic_or_result (.returned .ignored) = .ignored
    ∧ (∃ out, from_maybe_panic_or_result (.panicked "boom" none) = .failed out
        ∧ listContainsSub out "boom".data = true)
    ∧ from_maybe_panic (.returned ()) = .passed
    ∧ (∃ out, from_maybe_panic (.panicked "kaput" (some "trace")) = .failed out
        ∧ listContainsSub out "kaput".data = true) :=
  ⟨(from_maybe_panic_spec.1 (.returned .ignored)).1 .ignored rfl,
   (from_maybe_panic_spec.1 (.panicked "boom" none)).2 "boom" none rfl,
   (from_maybe_panic_spec.2 (.returned ())).1 () rfl,
   (from_maybe_panic_spec.2 (.panicked "kaput" (some "trace"))).2 "kaput"
     (some "trace") rfl⟩

/-! ## `collect_tests` (claims C3 and C8) -/

theorem ensureValidTestNames_ok_iff {T : Type} (alnum : Char → Bool)
    (cs : List (CollectedCategoryOrTest T)) :
    ensureValidTestNames alnum cs = .ok () ↔
      (∀ t ∈ testLeaves cs, isValidTestName alnum t.name = true) := by
  induction cs using testLeaves.induct with
  | case1 => simp [ensureValidTestNames, testLeaves]
  | case2 t rest ih =>
      cases hv : isValidTestName alnum t.name
      · simp [ensureValidTestNames, testLeaves, hv]
      · simp [ensureValidTestNames, testLeaves, hv, ih]
  | case3 n p cs rest ih1 ih2 =>
      cases he : ensureValidTestNames alnum cs with
      | error m =>
          have h1 : ¬ ∀ t ∈ testLeaves cs, isValidTestName alnum t.name = true := by
            intro hall
            rw [ih1.mpr hall] at he
            cases he
          simp only [ensureValidTestNames, he, testLeaves, List.mem_append]
          constructor
          · intro hx
            cases hx
          · intro hall
            exact absurd (fun t ht => hall t (Or.inl ht)) h1
      | ok u =>
          cases u
          simp only [ensureValidTestNames, he, testLeaves, List.mem_append, ih2]
          have h1 := ih1.mp he
          constructor
          · intro hall t ht
            rcases ht with ht | ht
            · exact h1 t ht
            · exact hall t ht
          · intro hall t ht
            exact hall t (Or.inr ht)

theorem ensureValidTestNames_error_invalid {T : Type} (alnum : Char → Bool)
    (cs : List (CollectedCategoryOrTest T)) (n : String)
    (he : ensureValidTestNames alnum cs = .error n) :
    isValidTestName alnum n = false := by
  induction cs using testLeaves.induct with
  | case1 => simp [ensureValidTestNames] at he
  | case2 t rest ih =>
      by_cases hv : isValidTestName alnum t.name = true
      · rw [ensureValidTestNames, if_pos hv] at he
        exact ih he
      · rw [ensureValidTestNames, if_neg hv] at he
        cases he
        simpa using hv
  | case3 nm p cs rest ih1 ih2 =>
      rw [ensureValidTestNames] at he
      cases h2 : ensureValidTestNames alnum cs with
      | error m =>
          rw [h2] at he
          cases he
          exact ih1 h2
      | ok u =>
          cases u
          rw [h2] at he
          exact ih2 he

theorem testLeaves_filterChildrenList {T : Type} (f : String)
    (cs : List (CollectedCategoryOrTest T)) :
    testLeaves (filterChildrenList f cs) =
      (testLeaves cs).filter (fun t => strContains t.name f) := by
  induction cs using filterChildrenList.induct f with
  | case1 => simp [filterChildrenList, testLeaves]
  | case2 n p cs rest cs2 hemp ih1 ih2 =>
      simp only [filterChildrenList] at *
      have h1 : testLeaves (filterChildrenList f cs) = [] :=
        (isEmptyChildren_iff_testLeaves _).mp hemp
      simp only [hemp, if_true, testLeaves, List.filter_append, ← ih1, h1,
        List.nil_append, ih2]
  | case3 n p cs rest cs2 hemp ih1 ih2 =>
      simp only [Bool.not_eq_true] at hemp
      simp only [filterChildrenList] at *
      simp only [hemp, Bool.false_eq_true, if_false, testLeaves,
        List.filter_append, ← ih1, ih2]
  | case4 t rest hc ih =>
      simp [filterChildrenList, testLeaves, hc, ih]
  | case5 t rest hc ih =>
      simp only [Bool.not_eq_true] at hc
      simp [filterChildrenList, testLeaves, hc, ih]

theorem isEmptyChildren_eq_false_of_leaves_ne {T : Type}
    {cs : List (CollectedCategoryOrTest T)} (h : testLeaves cs ≠ []) :
    isEmptyChildren cs = false := by
  cases he : isEmptyChildren cs
  · rfl
  · exact absurd ((isEmptyChildren_iff_testLeaves cs).mp he) h

/-- Claim C3: `collect_tests` answers `NoTestsFound` exactly when the
strategy-produced tree holds no Test leaf before any filter is applied; a
non-empty tree with valid names is returned `Ok` even if filtering empties
it; and `run_tests` on a category counting zero tests returns immediately
and successfully, having executed nothing and recorded no failure. -/
theorem collect_tests_empty_spec {T : Type} (alnum : Char → Bool)
    (cat : CollectedTestCategory T)
    (mf : Option String) (run : CollectedTest T → TestResult)
    (c : CollectedTestCategory T) :
    (collect_tests alnum cat mf = .error .noTestsFound ↔
      testLeaves cat.children = [])
    ∧ (testLeaves cat.children ≠ [] →
        ensureValidTestNames alnum cat.children = .ok () →
        ∃ c2, collect_tests alnum cat mf = .ok c2)
    ∧ (c.test_count = 0 →
        run_tests run c = ({ executed := [], failures := [] }, .earlyNoTests)) := by
  refine ⟨⟨?_, ?_⟩, ?_, ?_⟩
  · intro hres
    by_contra hne
    have hemp : isEmptyChildren cat.children = false :=
      isEmptyChildren_eq_false_of_leaves_ne hne
    rw [collect_tests.eq_def] at hres
    rw [CollectedTestCategory.is_empty] at hres
    rw [hemp] at hres
    simp only [Bool.false_eq_true, if_false] at hres
    cases he : ensureValidTestNames alnum cat.children with
    | error n =>
        rw [he] at hres
        cases hres
    | ok u =>
        cases u
        rw [he] at hres
        cases mf with
        | some f =>
            simp only at hres
            cases hres
        | none =>
            simp only at hres
            cases hres
  · intro hleaves
    have hemp : isEmptyChildren cat.children = true :=
      (isEmptyChildren_iff_testLeaves cat.children).mpr hleaves
    rw [collect_tests.eq_def, CollectedTestCategory.is_empty, hemp]
    simp
  · intro hne hok
    have hemp : isEmptyChildren cat.children = false :=
      isEmptyChildren_eq_false_of_leaves_ne hne
    rw [collect_tests.eq_def, CollectedTestCategory.is_empty, hemp]
    simp only [Bool.false_eq_true, if_false]
    rw [hok]
    cases mf with
    | some f => exact ⟨_, rfl⟩
    | none => exact ⟨_, rfl⟩
  · intro hzero
    rw [run_tests]
    simp [hzero]

/-- Concrete instantiation of `collect_tests_empty_spec`: a one-test tree is
`Ok` even when the filter removes everything, and running an empty category
exits successfully at once. -/
theorem collect_tests_empty_spec_witness :
    (∃ c2, collect_tests Char.isAlphanum
        { name := "root", path := [], children :=
            [.test { name := "abc", path := [], line_and_column := none,
                     data := () }] }
        (some "zzz") = .ok c2)
    ∧ run_tests (T := Unit) (fun _ => TestResult.passed)
        { name := "root", path := [], children := [] } =
        ({ executed := [], failures := [] }, .earlyNoTests) :=
  ⟨(collect_tests_empty_spec Char.isAlphanum
      { name := "root", path := [], children :=
          [.test { name := "abc", path := [], line_and_column := none,
                   data := () }] }
      (some "zzz") (fun _ => TestResult.passed)
      { name := "root", path := [], children := [] }).2.1
      (by simp [testLeaves])
      (by have h : isValidTestName Char.isAlphanum "abc" = true := by decide
          simp [ensureValidTestNames, h]),
   (collect_tests_empty_spec Char.isAlphanum
      { name := "root", path := [], children :=
          [.test { name := "abc", path := [], line_and_column := none,
                   data := () }] }
      (some "zzz") (fun _ => TestResult.passed)
      { name := "root", path := [], children := [] }).2.2
      (by simp [CollectedTestCategory.test_count, testCountChildren])⟩

/-- Claim C8 (amended): `collect_tests` returns an `InvalidTestName` error
(carrying an offending name) whenever some test name in the collected tree
contains a character other than an alphanumeric, underscore or ':'; and in
every tree `collect_tests` returns `Ok`, all test names are restricted to
those characters.  Stated for an arbitrary alphanumeric classifier `alnum`,
hence in particular for the library's Unicode-aware one.  (Uniqueness of
names is not checked by the code; see the counterexample.) -/
theorem collect_tests_valid_names {T : Type} (alnum : Char → Bool)
    (cat : CollectedTestCategory T) (mf : Option String) :
    ((∃ t ∈ testLeaves cat.children, isValidTestName alnum t.name = false) →
      ∃ n, collect_tests alnum cat mf = .error (.invalidTestName n)
        ∧ isValidTestName alnum n = false)
    ∧ (∀ c2, collect_tests alnum cat mf = .ok c2 →
        ∀ t ∈ testLeaves c2.children, isValidTestName alnum t.name = true) := by
  constructor
  · rintro ⟨t, ht, hbad⟩
    have hne : testLeaves cat.children ≠ [] := by
      intro hx
      rw [hx] at ht
      cases ht
    have hemp : isEmptyChildren cat.children = false :=
      isEmptyChildren_eq_false_of_leaves_ne hne
    cases he : ensureValidTestNames alnum cat.children with
    | ok u =>
        cases u
        have hall := (ensureValidTestNames_ok_iff alnum cat.children).mp he
        rw [hall t ht] at hbad
        cases hbad
    | error n =>
        refine ⟨n, ?_,
          ensureValidTestNames_error_invalid alnum cat.children n he⟩
        rw [collect_tests.eq_def, CollectedTestCategory.is_empty, hemp]
        simp only [Bool.false_eq_true, if_false]
        rw [he]
  · intro c2 hok t ht
    have hemp : isEmptyChildren cat.children = false := by
      cases hx : isEmptyChildren cat.children
      · rfl
      · rw [collect_tests.eq_def, CollectedTestCategory.is_empty, hx] at hok
        simp only [if_true] at hok
        cases hok
    rw [collect_tests.eq_def, CollectedTestCategory.is_empty, hemp] at hok
    simp only [Bool.false_eq_true, if_false] at hok
    cases he : ensureValidTestNames alnum cat.children with
    | error n =>
        rw [he] at hok
        cases hok
    | ok u =>
        cases u
        rw [he] at hok
        have hall := (ensureValidTestNames_ok_iff alnum cat.children).mp he
        cases mf with
        | none =>
            simp only [Except.ok.injEq] at hok
            subst hok
            exact hall t ht
        | some f =>
            simp only [Except.ok.injEq] at hok
            subst hok
            have hsub : t ∈ testLeaves cat.children := by
              have := ht
              rw [CollectedTestCategory.filter_children] at this
              simp only at this
              rw [testLeaves_filterChildrenList] at this
              exact List.mem_of_mem_filter this
            exact hall t hsub

/-- Concrete instantiation of `collect_tests_valid_names`: a tree containing
a space in a test name is rejected with `InvalidTestName`, and an accepted
tree has only valid names. -/
theorem collect_tests_valid_names_witness :
    (∃ n, collect_tests (T := Unit) Char.isAlphanum
        { name := "root", path := [], children :=
            [.test { name := "bad name", path := [], line_and_column := none,
                     data := () }] } none = .error (.invalidTestName n)
      ∧ isValidTestName Char.isAlphanum n = false)
    ∧ (∀ t ∈ testLeaves
        ({ name := "root", path := [], children :=
            [.test { name := "good_name", path := [], line_and_column := none,
                     data := () }] } : CollectedTestCategory Unit).children,
        isValidTestName Char.isAlphanum t.name = true) :=
  ⟨(collect_tests_valid_names Char.isAlphanum
      { name := "root", path := [], children :=
          [.test { name := "bad name", path := [], line_and_column := none,
                   data := () }] } none).1
      ⟨{ name := "bad name", path := [], line_and_column := none, data := () },
        by simp [testLeaves], by decide⟩,
   (collect_tests_valid_names Char.isAlphanum
      { name := "root", path := [], children :=
          [.test { name := "good_name", path := [], line_and_column := none,
                   data := () }] } none).2
      { name := "root", path := [], children :=
          [.test { name := "good_name", path := [], line_and_column := none,
                   data := () }] }
      (by have h : isValidTestName Char.isAlphanum "good_name" = true := by
            decide
          rw [collect_tests.eq_def]
          simp [CollectedTestCategory.is_empty, isEmptyChildren,
            ensureValidTestNames, h])⟩

/-- Counterexample to the uniqueness half of claim C8: a tree with two
distinct Test leaves bearing the same name "a" passes `collect_tests`
unchanged (`Ok`), yet its test names are not unique. -/
theorem collect_tests_duplicate_names_accepted :
    collect_tests (T := Unit) Char.isAlphanum
      { name := "root", path := [], children :=
          [.test { name := "a", path := ["one"], line_and_column := none,
                   data := () },
           .test { name := "a", path := ["two"], line_and_column := none,
                   data := () }] } none =
      .ok { name := "root", path := [], children :=
          [.test { name := "a", path := ["one"], line_and_column := none,
                   data := () },
           .test { name := "a", path := ["two"], line_and_column := none,
                   data := () }] }
    ∧ ¬ ((testLeaves
        ({ name := "root", path := [], children :=
            [.test { name := "a", path := ["one"], line_and_column := none,
                     data := () },
             .test { name := "a", path := ["two"], line_and_column := none,
                     data := () }] } : CollectedTestCategory Unit).children).map
          (fun t => t.name)).Nodup := by
  constructor
  · have h : isValidTestName Char.isAlphanum "a" = true := by decide
    rw [collect_tests.eq_def]
    simp [CollectedTestCategory.is_empty, isEmptyChildren,
      ensureValidTestNames, h]
  · simp [testLeaves]

/-! ## The sequential execution engine (claim C2) -/

theorem mkFailures_append {T : Type} (run : CollectedTest T → TestResult)
    (a b : List (CollectedTest T)) :
    mkFailures run (a ++ b) = mkFailures run a ++ mkFailures run b := by
  simp [mkFailures]

theorem runTestsForCategory_spec {T : Type} (run : CollectedTest T → TestResult)
    (tests : List (CollectedTest T)) (ctx : RunContext T) :
    runTestsForCategory run tests ctx =
      { executed := ctx.executed ++ tests,
        failures := ctx.failures ++ mkFailures run tests } := by
  induction tests generalizing ctx with
  | nil => simp [runTestsForCategory, mkFailures]
  | cons t rest ih =>
      rw [runTestsForCategory]
      rw [ih]
      cases hf : (run t).is_failed <;>
        simp [mkFailures, hf, List.filter_cons]

theorem runSubCategories_spec {T : Type} (run : CollectedTest T → TestResult) :
    ∀ (l : List (CollectedCategoryOrTest T)) (ctx : RunContext T),
      runSubCategories run l ctx =
        { executed := ctx.executed ++ seqOrderSubs l,
          failures := ctx.failures ++ mkFailures run (seqOrderSubs l) } := by
  refine runSubCategories.induct run
    (fun children ctx => runCategoryChildren run children ctx =
      { executed := ctx.executed ++ seqOrderChildren children,
        failures := ctx.failures ++ mkFailures run (seqOrderChildren children) })
    (fun l ctx => runSubCategories run l ctx =
      { executed := ctx.executed ++ seqOrderSubs l,
        failures := ctx.failures ++ mkFailures run (seqOrderSubs l) })
    ?_ ?_ ?_ ?_
  · intro children ctx h2
    rw [runCategoryChildren, h2, runTestsForCategory_spec, seqOrderChildren]
    simp [mkFailures_append]
  · intro ctx
    simp [runSubCategories, seqOrderSubs, mkFailures]
  · intro t rest ctx ih
    rw [runSubCategories, ih]
    simp [seqOrderSubs]
  · intro n p cs rest ctx ih1 ih2
    rw [runSubCategories, ih2, ih1]
    simp [seqOrderSubs, mkFailures_append]

theorem runCategoryChildren_spec {T : Type} (run : CollectedTest T → TestResult)
    (children : List (CollectedCategoryOrTest T)) (ctx : RunContext T) :
    runCategoryChildren run children ctx =
      { executed := ctx.executed ++ seqOrderChildren children,
        failures := ctx.failures ++ mkFailures run (seqOrderChildren children) } := by
  rw [runCategoryChildren, runTestsForCategory_spec, runSubCategories_spec,
    seqOrderChildren]
  simp [mkFailures_append]

theorem seqOrderSubs_perm {T : Type} :
    ∀ l : List (CollectedCategoryOrTest T),
      (directTests l ++ seqOrderSubs l).Perm (testLeaves l) := by
  refine seqOrderSubs.induct
    (fun children => (seqOrderChildren children).Perm (testLeaves children))
    (fun l => (directTests l ++ seqOrderSubs l).Perm (testLeaves l))
    ?_ ?_ ?_ ?_
  · intro children h2
    rw [seqOrderChildren]
    exact h2
  · simp [directTests, seqOrderSubs, testLeaves]
  · intro t rest ih
    simp only [directTests, seqOrderSubs, testLeaves, List.cons_append]
    exact ih.cons t
  · intro n p cs rest ih1 ih2
    simp only [directTests, seqOrderSubs, testLeaves]
    have s1 : (directTests rest ++ (seqOrderChildren cs ++ seqOrderSubs rest)).Perm
        (seqOrderChildren cs ++ (directTests rest ++ seqOrderSubs rest)) := by
      rw [← List.append_assoc, ← List.append_assoc]
      exact (List.perm_append_comm).append_right _
    have s2 : (seqOrderChildren cs ++ (directTests rest ++ seqOrderSubs rest)).Perm
        (testLeaves cs ++ testLeaves rest) :=
      List.Perm.append ih1 ih2
    exact s1.trans s2

theorem seqOrderChildren_perm {T : Type}
    (children : List (CollectedCategoryOrTest T)) :
    (seqOrderChildren children).Perm (testLeaves children) := by
  rw [seqOrderChildren]
  exact seqOrderSubs_perm children

/-- Claim C2: in sequential mode on a non-empty tree, `run_tests` invokes
the user run function exactly once for every Test leaf (the executed list is
a permutation of the leaves) even when earlier tests fail; the aggregated
failure list contains exactly the executed tests whose results are failed,
with their extracted output; the run panics with the failed-of-total counts
iff that list is non-empty; and the whole tree has been walked before the
panic (the executed list is complete in both outcomes). -/
theorem run_tests_sequential_spec {T : Type} (run : CollectedTest T → TestResult)
    (c : CollectedTestCategory T) (h : c.test_count ≠ 0) :
    ((run_tests run c).1.executed).Perm (testLeaves c.children)
    ∧ (run_tests run c).1.failures =
        ((run_tests run c).1.executed.filter (fun t => (run t).is_failed)).map
          (fun t => { test := t, output := buildFailureOutput (run t) })
    ∧ ((run_tests run c).2 =
        .panicked (run_tests run c).1.failures.length c.test_count ↔
        (run_tests run c).1.failures ≠ [])
    ∧ ((run_tests run c).1.failures = [] →
        (run_tests run c).2 = .success c.test_count) := by
  have hrun : run_tests run c =
      ({ executed := seqOrderChildren c.children,
         failures := mkFailures run (seqOrderChildren c.children) },
       if (mkFailures run (seqOrderChildren c.children)).isEmpty then
         .success c.test_count
       else .panicked (mkFailures run (seqOrderChildren c.children)).length
         c.test_count) := by
    rw [run_tests]
    simp only [h, if_false]
    rw [runCategoryChildren_spec]
    simp only [List.nil_append]
    split <;> rfl
  rw [hrun]
  refine ⟨seqOrderChildren_perm c.children, by simp [mkFailures], ?_, ?_⟩
  · cases hfe : (mkFailures run (seqOrderChildren c.children)).isEmpty
    · have hne : mkFailures run (seqOrderChildren c.children) ≠ [] := by
        intro hx
        rw [hx] at hfe
        cases hfe
      simp [hfe, hne]
    · have hnil : mkFailures run (seqOrderChildren c.children) = [] :=
        List.isEmpty_iff.mp hfe
      simp [hfe, hnil]
  · intro hnil
    have hnil2 : mkFailures run (seqOrderChildren c.children) = [] := hnil
    simp [hnil2]

/-- Concrete instantiation of `run_tests_sequential_spec` on a two-level
tree with one failing test. -/
theorem run_tests_sequential_spec_witness :
    ((run_tests (T := Unit)
        (fun t => if t.name = "f" then TestResult.failed ['e'] else .passed)
        { name := "root", path := [], children :=
            [.test { name := "ok1", path := [], line_and_column := none,
                     data := () },
             .category "sub" []
               [.test { name := "f", path := [], line_and_column := none,
                        data := () }]] }).1.executed).Perm
      (testLeaves
        ({ name := "root", path := [], children :=
            [.test { name := "ok1", path := [], line_and_column := none,
                     data := () },
             .category "sub" []
               [.test { name := "f", path := [], line_and_column := none,
                        data := () }]] } : CollectedTestCategory Unit).children) :=
  (run_tests_sequential_spec
    (fun t => if t.name = "f" then TestResult.failed ['e'] else .passed)
    { name := "root", path := [], children :=
        [.test { name := "ok1", path := [], line_and_column := none,
                 data := () },
         .category "sub" []
           [.test { name := "f", path := [], line_and_column := none,
                    data := () }]] }
    (by simp [CollectedTestCategory.test_count, testCountChildren])).1

/-! ## The per-directory collection strategy (claim C9) -/

theorem collectDirLoop_no_dirs (cn : String) (dp : List String) (marker : String) :
    ∀ l : List FsEntry, (∀ e ∈ l, e.isDirEntry = false) →
      collectDirLoop cn dp marker l = .ok [] := by
  intro l
  induction l with
  | nil => intro _; rw [collectDirLoop]
  | cons e rest ih =>
      intro h
      cases e with
      | file f =>
          rw [collectDirLoop]
          exact ih (fun e he => h e (List.mem_cons_of_mem _ he))
      | dir n sub =>
          have hd := h (.dir n sub) (List.mem_cons_self _ _)
          simp [FsEntry.isDirEntry] at hd

theorem collectDirLoop_marker_mem (cn : String) (dp : List String)
    (marker : String) :
    ∀ (l : List FsEntry) (ts : List (CollectedCategoryOrTest Unit)) (n : String)
      (sub : List FsEntry),
      collectDirLoop cn dp marker l = .ok ts →
      FsEntry.dir n sub ∈ l →
      markerExistsIn sub marker = true →
      (CollectedCategoryOrTest.test
        { name := append_to_category_name cn n,
          path := dp ++ [n, marker], line_and_column := none, data := () }) ∈ ts := by
  intro l
  induction l with
  | nil =>
      intro ts n sub _ hmem _
      cases hmem
  | cons e rest ih =>
      intro ts n sub hok hmem hmark
      cases e with
      | file f =>
          rw [collectDirLoop] at hok
          rcases List.mem_cons.mp hmem with h | h
          · exact FsEntry.noConfusion h
          · exact ih ts n sub hok h hmark
      | dir n2 sub2 =>
          rw [collectDirLoop] at hok
          by_cases hm : markerExistsIn sub2 marker = true
          · rw [if_pos hm] at hok
            cases hrest : collectDirLoop cn dp marker rest with
            | error e2 =>
                rw [hrest] at hok
                cases hok
            | ok ts2 =>
                rw [hrest] at hok
                simp only [Except.ok.injEq] at hok
                subst hok
                rcases List.mem_cons.mp hmem with h | h
                · injection h with h1 h2
                  subst h1
                  subst h2
                  exact List.mem_cons_self _ _
                · exact List.mem_cons_of_mem _ (ih ts2 n sub hrest h hmark)
          · rw [if_neg hm] at hok
            cases hsub : collect_test_per_directory (append_to_category_name cn n2)
                (dp ++ [n2]) marker sub2 with
            | error e2 =>
                rw [hsub] at hok
                cases hok
            | ok children =>
                rw [hsub] at hok
                cases hrest : collectDirLoop cn dp marker rest with
                | error e2 =>
                    rw [hrest] at hok
                    cases hok
                | ok ts2 =>
                    rw [hrest] at hok
                    simp only [Except.ok.injEq] at hok
                    subst hok
                    rcases List.mem_cons.mp hmem with h | h
                    · injection h with h1 h2
                      subst h1
                      subst h2
                      exact absurd hmark hm
                    · have hmm := ih ts2 n sub hrest h hmark
                      split
                      · exact hmm
                      · exact List.mem_cons_of_mem _ hmm

/-- Claim C9: for a directory visited by the per-directory strategy, (a) a
directory whose (filtered) listing is non-empty but holds no subdirectory
and no marker file makes collection fail with the missing-marker-file
error; (b) a directory with no entries at all is tolerated, contributes
nothing and raises no error; (c) when collection succeeds, every
subdirectory containing the marker file contributes a single Test named
after that directory whose path is the marker file inside it. -/
theorem test_per_directory_spec :
    (∀ (cn : String) (dp : List String) (marker : String)
        (entries : List FsEntry),
      read_dir_entries entries ≠ [] →
      (∀ e ∈ read_dir_entries entries, e.isDirEntry = false) →
      markerExistsIn entries marker = false →
      collect_test_per_directory cn dp marker entries =
        .error (.missingMarkerFile marker dp))
    ∧ (∀ (cn : String) (dp : List String) (marker : String),
        collect_test_per_directory cn dp marker [] = .ok [])
    ∧ (∀ (cn : String) (dp : List String) (marker : String)
        (entries : List FsEntry) (n : String) (sub : List FsEntry)
        (l : List (CollectedCategoryOrTest Unit)),
      collect_test_per_directory cn dp marker entries = .ok l →
      FsEntry.dir n sub ∈ read_dir_entries entries →
      markerExistsIn sub marker = true →
      (CollectedCategoryOrTest.test
        { name := append_to_category_name cn n,
          path := dp ++ [n, marker], line_and_column := none, data := () }) ∈ l) := by
  refine ⟨?_, ?_, ?_⟩
  · intro cn dp marker entries hne hnd _
    rw [collect_test_per_directory]
    rw [collectDirLoop_no_dirs cn dp marker _ hnd]
    have ha : (read_dir_entries entries).any FsEntry.isDirEntry = false := by
      rw [List.any_eq_false]
      intro e he
      rw [hnd e he]
      simp
    have hie : (read_dir_entries entries).isEmpty = false := by
      cases hx : (read_dir_entries entries).isEmpty
      · rfl
      · exact absurd (List.isEmpty_iff.mp hx) hne
    simp [ha, hie]
  · intro cn dp marker
    rw [collect_test_per_directory]
    have h0 : read_dir_entries [] = [] := by
      simp [read_dir_entries, sortEntries]
    rw [h0]
    rw [collectDirLoop]
    simp
  · intro cn dp marker entries n sub l hok hmem hmark
    rw [collect_test_per_directory] at hok
    cases hloop : collectDirLoop cn dp marker (read_dir_entries entries) with
    | error e =>
        rw [hloop] at hok
        cases hok
    | ok ts =>
        rw [hloop] at hok
        have hok2 : (if (!(read_dir_entries entries).any FsEntry.isDirEntry
              && !(read_dir_entries entries).isEmpty) = true then
              (Except.error (PerDirectoryError.missingMarkerFile marker dp) :
                Except PerDirectoryError (List (CollectedCategoryOrTest Unit)))
            else .ok ts) = .ok l := hok
        by_cases hc : (!(read_dir_entries entries).any FsEntry.isDirEntry
            && !(read_dir_entries entries).isEmpty) = true
        · rw [if_pos hc] at hok2
          cases hok2
        · rw [if_neg hc] at hok2
          cases hok2
          exact collectDirLoop_marker_mem cn dp marker _ l n sub hloop hmem hmark

/-- Concrete instantiation of `test_per_directory_spec`: a directory with a
single plain file errors, an empty directory is tolerated, and a
subdirectory holding the marker file yields the corresponding Test. -/
theorem test_per_directory_spec_witness :
    collect_test_per_directory "root" [] "m" [FsEntry.file "x"] =
      .error (.missingMarkerFile "m" [])
    ∧ collect_test_per_directory "r2" ["base"] "mk" [] = .ok []
    ∧ (CollectedCategoryOrTest.test
        { name := append_to_category_name "root" "t", path := ["t", "m"],
          line_and_column := none, data := () }) ∈
        ([.test { name := append_to_category_name "root" "t", path := ["t", "m"],
                  line_and_column := none, data := () }] :
          List (CollectedCategoryOrTest Unit)) := by
  have hkx : keepDirEntry (.file "x") = true := by decide
  have hrdx : read_dir_entries [FsEntry.file "x"] = [FsEntry.file "x"] := by
    simp [read_dir_entries, List.filter_cons, hkx, sortEntries, insertEntrySorted]
  have hkt : keepDirEntry (.dir "t" [.file "m"]) = true := by decide
  have hrdt : read_dir_entries [FsEntry.dir "t" [FsEntry.file "m"]] =
      [FsEntry.dir "t" [FsEntry.file "m"]] := by
    simp [read_dir_entries, List.filter_cons, hkt, sortEntries, insertEntrySorted]
  have hmk : markerExistsIn [FsEntry.file "m"] "m" = true := by decide
  have hloop : collectDirLoop "root" [] "m" [FsEntry.dir "t" [FsEntry.file "m"]] =
      .ok [.test { name := append_to_category_name "root" "t",
                   path := ["t", "m"], line_and_column := none, data := () }] := by
    rw [collectDirLoop, if_pos hmk, collectDirLoop]
    simp
  have hok : collect_test_per_directory "root" [] "m"
      [FsEntry.dir "t" [FsEntry.file "m"]] =
      .ok [.test { name := append_to_category_name "root" "t",
                   path := ["t", "m"], line_and_column := none, data := () }] := by
    rw [collect_test_per_directory]
    simp only [hrdt, hloop]
    simp [FsEntry.isDirEntry]
  refine ⟨?_, test_per_directory_spec.2.1 "r2" ["base"] "mk", ?_⟩
  · exact test_per_directory_spec.1 "root" [] "m" [FsEntry.file "x"]
      (by rw [hrdx]; simp)
      (by rw [hrdx]; intro e he; simp at he; subst he; rfl)
      (by decide)
  · exact test_per_directory_spec.2.2 "root" [] "m"
      [FsEntry.dir "t" [FsEntry.file "m"]] "t" [FsEntry.file "m"] _ hok
      (by rw [hrdt]; exact List.mem_cons_self _ _) hmk

/-- Concrete instantiation of `filter_children_spec`: filtering with "ab"
keeps the matching Test and drops the sub-Category that filters to empty. -/
theorem filter_children_spec_witness :
    (CollectedCategoryOrTest.test (T := Unit)
        { name := "ab", path := [], line_and_column := none, data := () } ∈
      (CollectedTestCategory.filter_children
        { name := "root", path := [], children :=
            [.test { name := "ab", path := [], line_and_column := none,
                     data := () },
             .category "sub" []
               [.test { name := "cd", path := [], line_and_column := none,
                        data := () }]] } "ab").children)
    ∧ ¬ (CollectedCategoryOrTest.category "sub" []
          (filterChildrenList "ab"
            [.test { name := "cd", path := [], line_and_column := none,
                     data := () }]) ∈
        (CollectedTestCategory.filter_children
          { name := "root", path := [], children :=
              [.test { name := "ab", path := [], line_and_column := none,
                       data := () },
               .category "sub" []
                 [.test { name := "cd", path := [], line_and_column := none,
                          data := () }]] } "ab").children) := by
  constructor
  · exact ((filter_children_spec "ab"
      { name := "root", path := [], children :=
          [.test { name := "ab", path := [], line_and_column := none,
                   data := () },
           .category "sub" []
             [.test { name := "cd", path := [], line_and_column := none,
                      data := () }]] }).2.1
      { name := "ab", path := [], line_and_column := none, data := () }).mpr
      ⟨by simp, by decide⟩
  · intro h
    have hmem := ((filter_children_spec "ab"
      { name := "root", path := [], children :=
          [.test { name := "ab", path := [], line_and_column := none,
                   data := () },
           .category "sub" []
             [.test { name := "cd", path := [], line_and_column := none,
                      data := () }]] }).2.2.1 "sub" []
      [.test { name := "cd", path := [], line_and_column := none, data := () }]
      (by simp)).mp h
    have hc : strContains "cd" "ab" = false := by decide
    have he : isEmptyChildren (filterChildrenList "ab"
        [.test (T := Unit) { name := "cd", path := [], line_and_column := none,
                             data := () }]) = true := by
      simp [filterChildrenList, hc, isEmptyChildren]
    rw [he] at hmem
    cases hmem
